import Mathlib

/-!
Verification of the Eä compiler benchmarking harness scripts
(`scripts/performance_validation.py`, `scripts/run_honest_benchmarks.py`)
against their natural-language specification.

The Python code is shallowly embedded: pure computations become Lean
functions over exact rationals (Python floats are modelled as `ℚ`),
subprocess interaction is abstracted into explicit outcome values passed
as parameters, and Python exceptions become `Except` errors.
-/

namespace PerfVal

/-- `CompilerInfo` dataclass of `performance_validation.py`. -/
structure CompilerInfo where
  name : String
  version : String
  available : Bool
deriving DecidableEq, Repr

/-- `BenchmarkResult` dataclass of `performance_validation.py`. -/
structure BenchmarkResult where
  compiler : String
  test_name : String
  compilation_time_ms : ℚ
  memory_usage_mb : Option ℚ
  success : Bool
  output_size_bytes : Option Nat
deriving DecidableEq, Repr

/-- One timed build invocation as observed by the aggregation loop of
`run_comprehensive_benchmarks`: its success flag, its wall-clock duration in
milliseconds, and the size of the produced artifact if any. -/
structure Trial where
  success : Bool
  duration : ℚ
  output_size : Option Nat
deriving DecidableEq, Repr

/-- `statistics.mean` over exact rationals. -/
def stat_mean (l : List ℚ) : ℚ := l.sum / l.length

/-- `statistics.median`: sort the data; for odd length take the middle
element, for even length average the two middle elements.  (Python raises
on empty input; the embedding returns the default `0` there, and every
use below is guarded by nonemptiness.) -/
def stat_median (l : List ℚ) : ℚ :=
  let s := l.insertionSort (· ≤ ·)
  let n := s.length
  if n % 2 = 1 then s.getD (n / 2) 0
  else (s.getD (n / 2 - 1) 0 + s.getD (n / 2) 0) / 2

/-- Sample variance over exact rationals (the square of `statistics.stdev`);
defined for lists of length ≥ 2, returns 0 otherwise. -/
def sampleVariance (l : List ℚ) : ℚ :=
  if 1 < l.length then
    ((l.map (fun x => (x - stat_mean l) ^ 2)).sum) / ((l.length : ℚ) - 1)
  else 0

/-- Line 409 of `performance_validation.py`:
`std_dev = statistics.stdev(iteration_results) if len(iteration_results) > 1 else 0`.
`statistics.stdev` is the square root of the sample variance. -/
noncomputable def std_dev (iteration_results : List ℚ) : ℝ :=
  if 1 < iteration_results.length then Real.sqrt (sampleVariance iteration_results)
  else 0

/-- The inner loop of `run_comprehensive_benchmarks` (lines 390-403):
`iteration_results` starts empty and each trial's `compilation_time_ms`
is appended exactly when `result.success` holds. -/
def collectSuccess (trials : List Trial) : List ℚ :=
  trials.foldl (fun acc r => if r.success then acc ++ [r.duration] else acc) []

/-- Lines 405-415 of `run_comprehensive_benchmarks`: if any iteration
succeeded, compute the median of the successful durations and append a
`BenchmarkResult` carrying that median (the mean and standard deviation are
also computed there but only printed, not stored); `result.output_size` read
after the loop is the output size of the last iteration's trial.  If no
iteration succeeded no record is produced (the code only prints `FAILED`). -/
def aggregatePair (compiler test_name : String) (trials : List Trial) :
    Option BenchmarkResult :=
  let iteration_results := collectSuccess trials
  if iteration_results.isEmpty then none
  else
    some { compiler := compiler
           test_name := test_name
           compilation_time_ms := stat_median iteration_results
           memory_usage_mb := none
           success := true
           output_size_bytes := (trials.getLast?).bind (·.output_size) }

/-- The registry built by `detect_compilers`: the `self.compilers` dict,
which always carries exactly the keys `ea`, `rust`, `cpp`, `go`. -/
structure Compilers where
  ea : CompilerInfo
  rust : CompilerInfo
  cpp : CompilerInfo
  go : CompilerInfo
deriving DecidableEq, Repr

/-- Python dict lookup `self.compilers[key]`: `none` models a `KeyError`. -/
def Compilers.find? (cs : Compilers) : String → Option CompilerInfo
  | "ea" => some cs.ea
  | "rust" => some cs.rust
  | "cpp" => some cs.cpp
  | "go" => some cs.go
  | _ => none

/-- Outcome of one `subprocess.run` build invocation together with the
wall-clock time measured around it and the state of the expected output
artifact on disk afterwards: the external world seen by a benchmark call. -/
structure SpawnOutcome where
  returncode : Int
  elapsed_ms : ℚ
  artifact_size : Option Nat
deriving DecidableEq, Repr

/-- `benchmark_ea_compiler` (lines 245-278).  The second component counts
the external processes spawned by the call.  If `ea` is unavailable the
function returns `BenchmarkResult('ea', test_name, 0, None, False, None)`
without touching the world; otherwise it spawns the compiler once and
builds the result from the observed outcome. -/
def benchmark_ea_compiler (compilers : Compilers) (_program test_name : String)
    (world : SpawnOutcome) : BenchmarkResult × Nat :=
  if ¬ compilers.ea.available then
    (⟨"ea", test_name, 0, none, false, none⟩, 0)
  else
    (⟨"ea", test_name, world.elapsed_ms, none, world.returncode == 0,
      world.artifact_size⟩, 1)

/-- `benchmark_rust_compiler` (lines 280-309), same shape. -/
def benchmark_rust_compiler (compilers : Compilers) (_program test_name : String)
    (world : SpawnOutcome) : BenchmarkResult × Nat :=
  if ¬ compilers.rust.available then
    (⟨"rust", test_name, 0, none, false, none⟩, 0)
  else
    (⟨"rust", test_name, world.elapsed_ms, none, world.returncode == 0,
      world.artifact_size⟩, 1)

/-- `benchmark_cpp_compiler` (lines 311-340), same shape. -/
def benchmark_cpp_compiler (compilers : Compilers) (_program test_name : String)
    (world : SpawnOutcome) : BenchmarkResult × Nat :=
  if ¬ compilers.cpp.available then
    (⟨"cpp", test_name, 0, none, false, none⟩, 0)
  else
    (⟨"cpp", test_name, world.elapsed_ms, none, world.returncode == 0,
      world.artifact_size⟩, 1)

/-- `benchmark_go_compiler` (lines 342-371), same shape. -/
def benchmark_go_compiler (compilers : Compilers) (_program test_name : String)
    (world : SpawnOutcome) : BenchmarkResult × Nat :=
  if ¬ compilers.go.available then
    (⟨"go", test_name, 0, none, false, none⟩, 0)
  else
    (⟨"go", test_name, world.elapsed_ms, none, world.returncode == 0,
      world.artifact_size⟩, 1)

/-- One `subprocess.run` call site of the harness, with the `timeout`
keyword argument it passes (`none` when no timeout is given, in which case
the call can block indefinitely). -/
structure InvocationSite where
  script : String
  command : String
  timeout_s : Option ℚ
deriving DecidableEq, Repr

/-- Every external process invocation made by the two harness scripts,
with the timeout each passes to `subprocess.run`.  The only call that sets
one is the cargo-bench invocation in `run_honest_benchmarks.py`
(`timeout=600`); the four version probes and the four build invocations of
`performance_validation.py` pass no timeout at all. -/
def harness_invocation_sites : List InvocationSite :=
  [⟨"run_honest_benchmarks.py", "cargo bench --features=llvm --bench honest_full_pipeline_benchmarks", some 600⟩,
   ⟨"performance_validation.py", "cargo build --release --features=llvm", none⟩,
   ⟨"performance_validation.py", "rustc --version", none⟩,
   ⟨"performance_validation.py", "g++ --version", none⟩,
   ⟨"performance_validation.py", "go version", none⟩,
   ⟨"performance_validation.py", "ea --emit-llvm <tempfile>", none⟩,
   ⟨"performance_validation.py", "rustc -O --emit=llvm-ir <tempfile>", none⟩,
   ⟨"performance_validation.py", "g++ -O2 -S -emit-llvm <tempfile>", none⟩,
   ⟨"performance_validation.py", "go build <tempfile>", none⟩]

/-- Outcome of the cargo-bench subprocess in `run_honest_benchmarks.py`:
it completes with an exit code and captured output, exceeds its timeout
(raising `subprocess.TimeoutExpired`), or raises some other exception. -/
inductive BenchProcessOutcome
  | completed (returncode : Int) (stdout stderr : String)
  | timedOut
  | raised
deriving DecidableEq, Repr

/-- `run_benchmark` of `run_honest_benchmarks.py` (lines 20-46): returns the
captured stdout on exit code 0, and `None` (failure) on a non-zero exit, on
`TimeoutExpired`, or on any other exception. -/
def run_benchmark (outcome : BenchProcessOutcome) : Option String :=
  match outcome with
  | .completed rc out _ => if rc ≠ 0 then none else some out
  | .timedOut => none
  | .raised => none

/-- ASCII whitespace as recognised by Python's `str.strip()` / `str.split()`
(the embedding covers the ASCII fragment of Python's unicode whitespace). -/
def isPySpace (c : Char) : Bool :=
  c == ' ' || c == '\t' || c == '\n' || c == '\r' || c == '\x0b' || c == '\x0c'

/-- Python `str.strip()`: remove leading and trailing whitespace. -/
def pyStrip (l : List Char) : List Char :=
  ((l.dropWhile isPySpace).reverse.dropWhile isPySpace).reverse

/-- Worker for `pySplit`, carrying the current (reversed) word. -/
def pySplitGo (l : List Char) (acc : List Char) : List (List Char) :=
  match l with
  | [] => if acc.isEmpty then [] else [acc.reverse]
  | c :: rest =>
    if isPySpace c then
      if acc.isEmpty then pySplitGo rest [] else acc.reverse :: pySplitGo rest []
    else pySplitGo rest (c :: acc)

/-- Python `str.split()` with no argument: split on runs of whitespace,
discarding empty words. -/
def pySplit (l : List Char) : List (List Char) := pySplitGo l []

/-- Outcome of a version-probe subprocess: the binary was missing
(`FileNotFoundError`) or the process ran to completion with an exit code
and captured stdout. -/
inductive ProbeOutcome
  | notFound
  | ran (returncode : Int) (stdout : List Char)
deriving DecidableEq, Repr

/-- Whether a probe counts as successful: it ran and exited 0. -/
def probeOK : ProbeOutcome → Bool
  | .notFound => false
  | .ran rc _ => rc == 0

/-- The host environment seen by `detect_compilers`: the outcome of each of
the four probe subprocesses (`cargo build`, `rustc --version`,
`g++ --version`, `go version`). -/
structure HostEnv where
  cargo_build : ProbeOutcome
  rustc_version : ProbeOutcome
  gpp_version : ProbeOutcome
  go_version : ProbeOutcome
deriving DecidableEq, Repr

/-- The Eä block (lines 44-51): only `FileNotFoundError` is caught, the
version is always the fixed string `0.1.1`, availability is
`returncode == 0` of `cargo build`. -/
def detect_ea (p : ProbeOutcome) : Except Unit CompilerInfo :=
  match p with
  | .notFound => .ok ⟨"Eä", "0.1.1", false⟩
  | .ran rc _ => .ok ⟨"Eä", "0.1.1", rc == 0⟩

/-- The Rust block (lines 53-62): on exit 0 the version is
`stdout.strip().split()[1]`, an uncaught `IndexError` when fewer than two
tokens are present. -/
def detect_rust (p : ProbeOutcome) : Except Unit CompilerInfo :=
  match p with
  | .notFound => .ok ⟨"Rust", "unknown", false⟩
  | .ran rc out =>
    if rc == 0 then
      match (pySplit (pyStrip out))[1]? with
      | some v => .ok ⟨"Rust", String.mk v, true⟩
      | none => .error ()
    else .ok ⟨"Rust", "unknown", false⟩

/-- The C++ block (lines 64-73): on exit 0 the version is
`stdout.split('\n')[0]`, i.e. the characters before the first newline,
which never raises. -/
def detect_cpp (p : ProbeOutcome) : Except Unit CompilerInfo :=
  match p with
  | .notFound => .ok ⟨"C++", "unknown", false⟩
  | .ran rc out =>
    if rc == 0 then .ok ⟨"C++", String.mk (out.takeWhile (· != '\n')), true⟩
    else .ok ⟨"C++", "unknown", false⟩

/-- The Go block (lines 75-84): on exit 0 the version is
`stdout.strip().split()[2]`, an uncaught `IndexError` when fewer than three
tokens are present. -/
def detect_go (p : ProbeOutcome) : Except Unit CompilerInfo :=
  match p with
  | .notFound => .ok ⟨"Go", "unknown", false⟩
  | .ran rc out =>
    if rc == 0 then
      match (pySplit (pyStrip out))[2]? with
      | some v => .ok ⟨"Go", String.mk v, true⟩
      | none => .error ()
    else .ok ⟨"Go", "unknown", false⟩

/-- `detect_compilers` (lines 40-86): run the four probe blocks in order;
any uncaught `IndexError` from a block aborts discovery. -/
def detect_compilers (env : HostEnv) : Except Unit Compilers := do
  let ea ← detect_ea env.cargo_build
  let rust ← detect_rust env.rustc_version
  let cpp ← detect_cpp env.gpp_version
  let go ← detect_go env.go_version
  pure ⟨ea, rust, cpp, go⟩

/-- The shape of `create_test_programs`'s return value: an ordered mapping
from test name to an ordered mapping from compiler key to source text. -/
abbrev Corpus := List (String × List (String × String))

/-- `create_test_programs` (lines 88-243).  The program source texts are
opaque payload never inspected by the harness control flow, so they are
abbreviated here; the key structure (two test cases, each with the four
compiler entries in dict insertion order) is the faithful part. -/
def create_test_programs : Corpus :=
  [("fibonacci",
     [("ea", "fibonacci ea source"), ("rust", "fibonacci rust source"),
      ("cpp", "fibonacci cpp source"), ("go", "fibonacci go source")]),
   ("sorting",
     [("ea", "sorting ea source"), ("rust", "sorting rust source"),
      ("cpp", "sorting cpp source"), ("go", "sorting go source")])]

/-- One (test-case, compiler) step of the loop body of
`run_comprehensive_benchmarks` (lines 386-419): look the compiler up in the
registry dict (`KeyError`, modelled as `.error`, if the corpus names a
compiler unknown to the registry), `continue` when it is unavailable, and
otherwise aggregate its trials into at most one record. -/
def runPair (compilers : Compilers) (test_name compiler : String)
    (trials : List Trial) : Except Unit (Option BenchmarkResult) :=
  match compilers.find? compiler with
  | none => .error ()
  | some info =>
    if info.available then .ok (aggregatePair compiler test_name trials)
    else .ok none

/-- `run_comprehensive_benchmarks` (lines 373-419): iterate the corpus in
order, appending to `self.results` the aggregated record of every pair that
produced at least one successful trial.  The `outcomes` parameter is the
external world: the list of trials observed for each (test, compiler) pair
(five iterations in the script). -/
def run_comprehensive_benchmarks (compilers : Compilers) (test_programs : Corpus)
    (outcomes : String → String → List Trial) :
    Except Unit (List BenchmarkResult) :=
  test_programs.foldlM (fun acc tp =>
    tp.2.foldlM (fun acc2 cp => do
      let r ← runPair compilers tp.1 cp.1 (outcomes tp.1 cp.1)
      pure (match r with
            | some b => acc2 ++ [b]
            | none => acc2)) acc) []

/-- Error-free reading of `runPair`, defined when the compiler is known. -/
def runPairPure (compilers : Compilers) (test_name compiler : String)
    (trials : List Trial) : Option BenchmarkResult :=
  match compilers.find? compiler with
  | none => none
  | some info =>
    if info.available then aggregatePair compiler test_name trials else none

/-- Error-free reading of the whole benchmark loop. -/
def runPure (compilers : Compilers) (test_programs : Corpus)
    (outcomes : String → String → List Trial) : List BenchmarkResult :=
  test_programs.flatMap (fun tp =>
    tp.2.filterMap (fun cp => runPairPure compilers tp.1 cp.1 (outcomes tp.1 cp.1)))

/-- The aggregated record of toolchain `c` on test case `t`. -/
def matchesPair (c t : String) (b : BenchmarkResult) : Bool :=
  b.compiler == c && b.test_name == t

/-- A registry in which all four toolchains are available. -/
def csAll : Compilers :=
  ⟨⟨"Eä", "0.1.1", true⟩, ⟨"Rust", "1.75.0", true⟩,
   ⟨"C++", "g++ 13.2.0", true⟩, ⟨"Go", "go1.22.0", true⟩⟩

/-- The corpus of `create_test_programs` with the `go` entry of the
`fibonacci` test case removed. -/
def corpus_missing_go : Corpus :=
  [("fibonacci",
     [("ea", "fibonacci ea source"), ("rust", "fibonacci rust source"),
      ("cpp", "fibonacci cpp source")]),
   ("sorting",
     [("ea", "sorting ea source"), ("rust", "sorting rust source"),
      ("cpp", "sorting cpp source"), ("go", "sorting go source")])]

/-- The sort key order of line 453,
`results.sort(key=lambda r: r.compilation_time_ms)`. -/
def byTime (a b : BenchmarkResult) : Prop :=
  a.compilation_time_ms ≤ b.compilation_time_ms

instance : DecidableRel byTime :=
  fun a b =>
    inferInstanceAs (Decidable (a.compilation_time_ms ≤ b.compilation_time_ms))

instance {ε α : Type} [DecidableEq ε] [DecidableEq α] : DecidableEq (Except ε α) :=
  fun x y =>
    match x, y with
    | .ok a, .ok b =>
      if h : a = b then isTrue (by rw [h])
      else isFalse (by intro hc; cases hc; exact h rfl)
    | .error a, .error b =>
      if h : a = b then isTrue (by rw [h])
      else isFalse (by intro hc; cases hc; exact h rfl)
    | .ok _, .error _ => isFalse (by intro hc; cases hc)
    | .error _, .ok _ => isFalse (by intro hc; cases hc)

instance : IsTotal BenchmarkResult byTime :=
  ⟨fun a b => le_total a.compilation_time_ms b.compilation_time_ms⟩

instance : IsTrans BenchmarkResult byTime :=
  ⟨fun _ _ _ => le_trans⟩

/-- Line 453 of `generate_performance_report`:
`results.sort(key=lambda r: r.compilation_time_ms)`.  Python's `list.sort`
is a stable sort by the given key; it is modelled as insertion sort with
the non-strict key order, which is also stable, and any two stable sorts
by the same key agree. -/
def sortResults (results : List BenchmarkResult) : List BenchmarkResult :=
  results.insertionSort byTime

/-- The corpus and trial outcomes of a tie scenario: one test case, `ea`
succeeding in 1ms and 3ms (median 2, dispersion √2), `rust` succeeding in
2ms and 2ms (median 2, dispersion 0). -/
def corpus_tie : Corpus :=
  [("fibonacci", [("ea", "fibonacci ea source"), ("rust", "fibonacci rust source")])]

def outcomes_tie : String → String → List Trial :=
  fun _ c =>
    match c with
    | "ea" => [⟨true, 1, none⟩, ⟨true, 3, none⟩]
    | _ => [⟨true, 2, none⟩, ⟨true, 2, none⟩]

/-- Bool-valued list-prefix test used by the substring containment and
replacement models below. -/
def isPrefixL : List Char → List Char → Bool
  | [], _ => true
  | _ :: _, [] => false
  | p :: ps, c :: cs => p == c && isPrefixL ps cs

/-- Python substring containment `pat in s`. -/
def containsSub (pat : List Char) : List Char → Bool
  | [] => pat.isEmpty
  | c :: rest => isPrefixL pat (c :: rest) || containsSub pat rest

/-- Python `s.replace(old, new)`: replace non-overlapping occurrences of
`old` from left to right (used here only with nonempty `old`). -/
def pyReplace (pat rep : List Char) : List Char → List Char
  | [] => []
  | c :: rest =>
    if h : pat ≠ [] ∧ isPrefixL pat (c :: rest) = true then
      rep ++ pyReplace pat rep ((c :: rest).drop pat.length)
    else
      c :: pyReplace pat rep rest
termination_by l => l.length
decreasing_by
  · simp only [List.length_drop, List.length_cons]
    rcases pat with _ | ⟨p, ps⟩
    · exact absurd rfl h.1
    · simp only [List.length_cons]
      omega
  · simp

/-- The numeric value of a digit string, most significant digit first. -/
def digitsVal (l : List Char) : ℚ :=
  l.foldl (fun acc c => acc * 10 + ((c.toNat - '0'.toNat : ℕ) : ℚ)) 0

/-- Python `float(s)` on the plain nonnegative decimal fragment
(`digits` or `digits.digits`), the only shapes the spec's claims quantify
over; other accepted Python spellings (exponents, signs, `inf`, `nan`,
underscores) are outside this model and rejected.  `none` models a raised
`ValueError`. -/
def parsePyFloat (l : List Char) : Option ℚ :=
  let a := l.takeWhile (· != '.')
  match l.dropWhile (· != '.') with
  | [] =>
    if !a.isEmpty && a.all (·.isDigit) then some (digitsVal a) else none
  | _ :: b =>
    if !a.isEmpty && a.all (·.isDigit) && !b.isEmpty && b.all (·.isDigit) then
      some (digitsVal a + digitsVal b / (10 : ℚ) ^ b.length)
    else none

def nsPat : List Char := ['n', 's']

def musPat : List Char := ['µ', 's']

def usPat : List Char := ['u', 's']

def msPat : List Char := ['m', 's']

def sPat : List Char := ['s']

/-- `convert_to_microseconds` of `run_honest_benchmarks.py` (lines 89-106).
`Except.error` models an uncaught exception (`float()` raising `ValueError`
inside the four unit branches); the final branch wraps its `float()` call
in `try/except` and returns `None` on failure, hence `.ok none`. -/
def convert_to_microseconds (time_str0 : List Char) : Except Unit (Option ℚ) :=
  let time_str := pyStrip time_str0
  if containsSub nsPat time_str then
    match parsePyFloat (pyStrip (pyReplace nsPat [] time_str)) with
    | some v => .ok (some (v / 1000))
    | none => .error ()
  else if containsSub musPat time_str || containsSub usPat time_str then
    match parsePyFloat (pyStrip (pyReplace usPat [] (pyReplace musPat [] time_str))) with
    | some v => .ok (some v)
    | none => .error ()
  else if containsSub msPat time_str then
    match parsePyFloat (pyStrip (pyReplace msPat [] time_str)) with
    | some v => .ok (some (v * 1000))
    | none => .error ()
  else if containsSub sPat time_str
      && !containsSub msPat time_str && !containsSub nsPat time_str then
    match parsePyFloat (pyStrip (pyReplace sPat [] time_str)) with
    | some v => .ok (some (v * 1000000))
    | none => .error ()
  else
    .ok (parsePyFloat time_str)

/-- The rendered text of a nonnegative decimal numeral with integer digits
`d` and optional fractional digits `f`. -/
def renderNum (d f : List Char) : List Char :=
  d ++ (if f.isEmpty then [] else '.' :: f)

/-- The value denoted by the numeral `renderNum d f`. -/
def numValue (d f : List Char) : ℚ :=
  digitsVal d + (if f.isEmpty then 0 else digitsVal f / (10 : ℚ) ^ f.length)

/-- The two Python exceptions relevant to `analyze_results`: `ValueError`
raised by an unguarded `float()` conversion, and `ZeroDivisionError`. -/
inductive PyErr
  | valueError
  | zeroDiv
deriving DecidableEq, Repr

/-- Python division: raises `ZeroDivisionError` on a zero denominator. -/
def safeDiv (a b : ℚ) : Except PyErr ℚ :=
  if b = 0 then .error .zeroDiv else .ok (a / b)

/-- Python truthiness of a float-or-None variable: `None` and `0.0` are
falsy, everything else truthy. -/
def truthy : Option ℚ → Bool
  | none => false
  | some q => q != 0

/-- Python dict membership + subscript: `d[key] if key in d else absent`. -/
def lookupA {α : Type} (l : List (String × α)) (key : String) : Option α :=
  (l.find? (fun kv => kv.1 == key)).map Prod.snd

/-- `convert_to_microseconds` as called inside `analyze_results`: an
uncaught exception from it is a `ValueError`. -/
def liftConvert (s : List Char) : Except PyErr (Option ℚ) :=
  match convert_to_microseconds s with
  | .error _ => .error .valueError
  | .ok v => .ok v

/-- The three `<comp>_us` / `ea_vs_<comp>_speedup` / `ea_vs_<comp>_percent`
entries a frontend comparison block writes when it fires. -/
structure CompStats where
  time_us : ℚ
  speedup : ℚ
  percent : ℚ
deriving DecidableEq, Repr

/-- Same for a full-pipeline block, whose speedup and percent are guarded a
second (redundant) time and can in principle be `None`. -/
structure PipeStats where
  time_us : ℚ
  speedup : Option ℚ
  percent : Option ℚ
deriving DecidableEq, Repr

/-- One frontend comparison block of `analyze_results` (e.g. lines
127-132): fires only when the competitor key is present and `ea_time` is
truthy; converts the competitor's time (a raising `float()`), and divides
only under a truthiness guard on the converted value. -/
def frontendCompare (grp : List (String × List Char)) (key : String)
    (ea_time : Option ℚ) : Except PyErr (Option CompStats) :=
  match lookupA grp key, truthy ea_time with
  | some s, true =>
    (match liftConvert s with
     | .error e => .error e
     | .ok ct =>
       if truthy ct then
         match safeDiv (ct.getD 0) (ea_time.getD 0) with
         | .error e => .error e
         | .ok sp =>
           match safeDiv (ct.getD 0 - ea_time.getD 0) (ct.getD 0) with
           | .error e => .error e
           | .ok pc => .ok (some ⟨ct.getD 0, sp, pc * 100⟩)
       else .ok none)
  | _, _ => .ok none

/-- One full-pipeline comparison block (e.g. lines 160-165), with the
source's redundant `if ea_time else None` / `if <comp>_time else None`
conditional expressions. -/
def pipelineCompare (grp : List (String × List Char)) (key : String)
    (ea_time : Option ℚ) : Except PyErr (Option PipeStats) :=
  match lookupA grp key, truthy ea_time with
  | some s, true =>
    (match liftConvert s with
     | .error e => .error e
     | .ok ct =>
       if truthy ct then
         (match
            (if truthy ea_time then
              (match safeDiv (ct.getD 0) (ea_time.getD 0) with
               | .error e => .error e
               | .ok v => .ok (some v))
            else (.ok none : Except PyErr (Option ℚ))) with
          | .error e => .error e
          | .ok sp =>
            (match
              (if truthy ct then
                (match safeDiv (ct.getD 0 - ea_time.getD 0) (ct.getD 0) with
                 | .error e => .error e
                 | .ok v => .ok (some (v * 100)))
              else (.ok none : Except PyErr (Option ℚ))) with
             | .error e => .error e
             | .ok pc => .ok (some ⟨ct.getD 0, sp, pc⟩)))
       else .ok none)
  | _, _ => .ok none

/-- Lines 122-125 / 156-158: `ea_time` starts as `None` and is set to the
converted Eä entry only when the key is present; the group analysis stores
the (possibly `None`) value whenever the key was present. -/
def eaTimeOf (grp : List (String × List Char)) (key : String) :
    Except PyErr (Option (Option ℚ)) :=
  match lookupA grp key with
  | none => .ok none
  | some s =>
    match liftConvert s with
    | .error e => .error e
    | .ok v => .ok (some v)

/-- The `frontend_only` sub-dictionary of the analysis. -/
structure FrontendAnalysis where
  ea_us : Option (Option ℚ)
  rust : Option CompStats
  clang : Option CompStats
  go : Option CompStats
deriving DecidableEq, Repr

/-- The `full_pipeline` sub-dictionary of the analysis. -/
structure PipelineAnalysis where
  ea_us : Option (Option ℚ)
  rust : Option PipeStats
  gcc : Option PipeStats
  go : Option PipeStats
deriving DecidableEq, Repr

/-- The output of `analyze_results` (timestamp and static strings omitted:
they carry no data derived from the input). -/
structure Analysis where
  frontend_only : Option FrontendAnalysis
  full_pipeline : Option PipelineAnalysis
deriving DecidableEq, Repr

/-- Lines 118-148: the frontend-only comparison part. -/
def frontendPartOf (results : List (String × List (String × List Char))) :
    Except PyErr (Option FrontendAnalysis) :=
  match lookupA results "frontend_only_fair_comparison" with
  | none => .ok none
  | some grp =>
    match eaTimeOf grp "ea_frontend" with
    | .error e => .error e
    | .ok ea_us =>
      match frontendCompare grp "rustc_frontend" ea_us.join with
      | .error e => .error e
      | .ok r =>
        match frontendCompare grp "clang_frontend" ea_us.join with
        | .error e => .error e
        | .ok c =>
          match frontendCompare grp "go_frontend" ea_us.join with
          | .error e => .error e
          | .ok g => .ok (some ⟨ea_us, r, c, g⟩)

/-- Lines 151-181: the full-pipeline comparison part. -/
def pipelinePartOf (results : List (String × List (String × List Char))) :
    Except PyErr (Option PipelineAnalysis) :=
  match lookupA results "full_pipeline_fair_comparison" with
  | none => .ok none
  | some grp =>
    match eaTimeOf grp "ea_full_pipeline" with
    | .error e => .error e
    | .ok ea_us =>
      match pipelineCompare grp "rustc_full_pipeline" ea_us.join with
      | .error e => .error e
      | .ok r =>
        match pipelineCompare grp "gcc_full_pipeline" ea_us.join with
        | .error e => .error e
        | .ok g =>
          match pipelineCompare grp "go_full_pipeline" ea_us.join with
          | .error e => .error e
          | .ok go => .ok (some ⟨ea_us, r, g, go⟩)

/-- `analyze_results` (lines 108-183): build the two comparison parts in
order; an uncaught exception from either aborts the analysis. -/
def analyze_results (results : List (String × List (String × List Char))) :
    Except PyErr Analysis :=
  match frontendPartOf results with
  | .error e => .error e
  | .ok fp =>
    match pipelinePartOf results with
    | .error e => .error e
    | .ok pp => .ok ⟨fp, pp⟩

theorem collectSuccess_go (trials : List Trial) (acc : List ℚ) :
    trials.foldl (fun acc r => if r.success then acc ++ [r.duration] else acc) acc
      = acc ++ (trials.filter (·.success)).map (·.duration) := by
  induction trials generalizing acc with
  | nil => simp
  | cons t ts ih =>
    by_cases h : t.success
    · simp [List.foldl_cons, h, ih, List.filter_cons]
    · simp [List.foldl_cons, h, ih, List.filter_cons]

theorem collectSuccess_eq (trials : List Trial) :
    collectSuccess trials = (trials.filter (·.success)).map (·.duration) := by
  simpa using collectSuccess_go trials []

/-- C8: the dispersion computed at line 409 is exactly 0 whenever fewer
than two trials succeeded, regardless of the observed durations. -/
theorem dispersion_zero_of_lt_two_successes (trials : List Trial)
    (h : (trials.countP (·.success)) < 2) :
    std_dev (collectSuccess trials) = 0 := by
  have hlen : (collectSuccess trials).length < 2 := by
    rw [collectSuccess_eq, List.length_map, ← List.countP_eq_length_filter]
    exact h
  rw [std_dev, if_neg (by omega)]

/-- Witness for `dispersion_zero_of_lt_two_successes`: a single successful
trial of 57ms (plus one failure) yields dispersion exactly 0. -/
theorem dispersion_zero_of_lt_two_successes_witness :
    std_dev (collectSuccess [⟨true, 57, none⟩, ⟨false, 3, none⟩]) = 0 :=
  dispersion_zero_of_lt_two_successes _ (by decide)

/-- C2: for every toolchain whose registry entry has `available = false` —
independently per toolchain, whatever the other entries of the registry
say — a single-trial benchmark call returns a result with
`success = false` and `duration = 0`, and spawns no external process. -/
theorem unavailable_benchmark_is_synthetic_failure
    (compilers : Compilers) (program test_name : String) (world : SpawnOutcome) :
    (compilers.ea.available = false →
      benchmark_ea_compiler compilers program test_name world
        = (⟨"ea", test_name, 0, none, false, none⟩, 0))
      ∧ (compilers.rust.available = false →
        benchmark_rust_compiler compilers program test_name world
          = (⟨"rust", test_name, 0, none, false, none⟩, 0))
      ∧ (compilers.cpp.available = false →
        benchmark_cpp_compiler compilers program test_name world
          = (⟨"cpp", test_name, 0, none, false, none⟩, 0))
      ∧ (compilers.go.available = false →
        benchmark_go_compiler compilers program test_name world
          = (⟨"go", test_name, 0, none, false, none⟩, 0)) := by
  refine ⟨fun hea => ?_, fun hrust => ?_, fun hcpp => ?_, fun hgo => ?_⟩
  · simp [benchmark_ea_compiler, hea]
  · simp [benchmark_rust_compiler, hrust]
  · simp [benchmark_cpp_compiler, hcpp]
  · simp [benchmark_go_compiler, hgo]

/-- Witness for `unavailable_benchmark_is_synthetic_failure`: a mixed
registry with only `ea` unavailable while the three competitors are
available — the ea call alone is the synthetic failure with no spawn. -/
theorem unavailable_benchmark_is_synthetic_failure_witness :
    benchmark_ea_compiler
        ⟨⟨"Eä", "0.1.1", false⟩, ⟨"Rust", "1.75.0", true⟩,
         ⟨"C++", "g++ 13.2.0", true⟩, ⟨"Go", "go1.22.0", true⟩⟩
        "prog" "fibonacci" ⟨0, 33, none⟩
      = (⟨"ea", "fibonacci", 0, none, false, none⟩, 0) :=
  (unavailable_benchmark_is_synthetic_failure
    ⟨⟨"Eä", "0.1.1", false⟩, ⟨"Rust", "1.75.0", true⟩,
     ⟨"C++", "g++ 13.2.0", true⟩, ⟨"Go", "go1.22.0", true⟩⟩
    "prog" "fibonacci" ⟨0, 33, none⟩).1 rfl

/-- C4 counterexample: it is not true that every external process
invocation of the harness carries a finite timeout bound — only the
cargo-bench call of `run_honest_benchmarks.py` does, while all eight
`subprocess.run` calls of `performance_validation.py` pass no timeout. -/
theorem not_every_invocation_has_timeout :
    ¬ (∀ site ∈ harness_invocation_sites, site.timeout_s.isSome) := by
  decide

/-- C4 amended: exactly one harness invocation — the cargo-bench call of
`run_honest_benchmarks.py` — has a finite timeout bound (600 s), and on
timeout that call reports failure (`None`) instead of blocking; all eight
`subprocess.run` calls of `performance_validation.py` specify no timeout
and may block indefinitely. -/
theorem only_cargo_bench_has_timeout :
    harness_invocation_sites.filter (·.timeout_s.isSome)
        = [⟨"run_honest_benchmarks.py", "cargo bench --features=llvm --bench honest_full_pipeline_benchmarks", some 600⟩]
      ∧ run_benchmark .timedOut = none := by
  exact ⟨by decide, rfl⟩

theorem detect_ea_ok (p : ProbeOutcome) :
    detect_ea p = .ok ⟨"Eä", "0.1.1", probeOK p⟩ := by
  cases p <;> rfl

theorem detect_rust_ok (p : ProbeOutcome)
    (h : ∀ rc out, p = .ran rc out → rc = 0 → 2 ≤ (pySplit (pyStrip out)).length) :
    ∃ v, detect_rust p = .ok ⟨"Rust", v, probeOK p⟩
      ∧ (probeOK p = false → v = "unknown") := by
  cases p with
  | notFound => exact ⟨"unknown", rfl, fun _ => rfl⟩
  | ran rc out =>
    by_cases hrc : rc = 0
    · subst hrc
      have h2 : 2 ≤ (pySplit (pyStrip out)).length := h 0 out rfl rfl
      obtain ⟨w, hw⟩ : ∃ w, (pySplit (pyStrip out))[1]? = some w :=
        ⟨_, List.getElem?_eq_getElem (by omega)⟩
      refine ⟨String.mk w, ?_, ?_⟩
      · simp [detect_rust, hw, probeOK]
      · simp [probeOK]
    · refine ⟨"unknown", ?_, fun _ => rfl⟩
      have : (rc == 0) = false := by simpa using hrc
      simp [detect_rust, this, probeOK]

theorem detect_cpp_ok (p : ProbeOutcome) :
    ∃ v, detect_cpp p = .ok ⟨"C++", v, probeOK p⟩
      ∧ (probeOK p = false → v = "unknown") := by
  cases p with
  | notFound => exact ⟨"unknown", rfl, fun _ => rfl⟩
  | ran rc out =>
    by_cases hrc : rc = 0
    · subst hrc
      exact ⟨String.mk (out.takeWhile (· != '\n')),
        by simp [detect_cpp, probeOK], by simp [probeOK]⟩
    · have : (rc == 0) = false := by simpa using hrc
      exact ⟨"unknown", by simp [detect_cpp, this, probeOK], fun _ => rfl⟩

theorem detect_go_ok (p : ProbeOutcome)
    (h : ∀ rc out, p = .ran rc out → rc = 0 → 3 ≤ (pySplit (pyStrip out)).length) :
    ∃ v, detect_go p = .ok ⟨"Go", v, probeOK p⟩
      ∧ (probeOK p = false → v = "unknown") := by
  cases p with
  | notFound => exact ⟨"unknown", rfl, fun _ => rfl⟩
  | ran rc out =>
    by_cases hrc : rc = 0
    · subst hrc
      have h3 : 3 ≤ (pySplit (pyStrip out)).length := h 0 out rfl rfl
      obtain ⟨w, hw⟩ : ∃ w, (pySplit (pyStrip out))[2]? = some w :=
        ⟨_, List.getElem?_eq_getElem (by omega)⟩
      refine ⟨String.mk w, by simp [detect_go, hw, probeOK], by simp [probeOK]⟩
    · have : (rc == 0) = false := by simpa using hrc
      exact ⟨"unknown", by simp [detect_go, this, probeOK], fun _ => rfl⟩

/-- C6 counterexample: on a host where `rustc --version` exits 0 but prints
nothing, `detect_compilers` raises an `IndexError` (from
`stdout.strip().split()[1]`) instead of recording the `unknown` sentinel,
so discovery does not "never raise". -/
theorem detect_compilers_raises_on_unparseable_version :
    detect_compilers ⟨.notFound, .ran 0 [], .notFound, .notFound⟩ = .error () := rfl

/-- C6 amended: `detect_compilers` returns an entry for each of the four
configured toolchains and records a missing binary or a non-zero probe exit
as `available = false` without raising (version `unknown` for rust/cpp/go,
the fixed `0.1.1` for ea); but when a probe exits 0, discovery only
completes if the stdout parses (at least 2 whitespace tokens for rustc, at
least 3 for go) — otherwise it raises an `IndexError`; the `unknown`
sentinel is recorded for failed probes only, never for parse failures. -/
theorem detect_compilers_total_on_parseable_hosts (env : HostEnv)
    (hrust : ∀ rc out, env.rustc_version = .ran rc out → rc = 0 →
      2 ≤ (pySplit (pyStrip out)).length)
    (hgo : ∀ rc out, env.go_version = .ran rc out → rc = 0 →
      3 ≤ (pySplit (pyStrip out)).length) :
    ∃ cs : Compilers, detect_compilers env = .ok cs
      ∧ cs.ea.available = probeOK env.cargo_build
      ∧ cs.rust.available = probeOK env.rustc_version
      ∧ cs.cpp.available = probeOK env.gpp_version
      ∧ cs.go.available = probeOK env.go_version
      ∧ (cs.rust.available = false → cs.rust.version = "unknown")
      ∧ (cs.cpp.available = false → cs.cpp.version = "unknown")
      ∧ (cs.go.available = false → cs.go.version = "unknown")
      ∧ cs.ea.version = "0.1.1" := by
  obtain ⟨rv, hrv, hrv0⟩ := detect_rust_ok env.rustc_version hrust
  obtain ⟨cv, hcv, hcv0⟩ := detect_cpp_ok env.gpp_version
  obtain ⟨gv, hgv, hgv0⟩ := detect_go_ok env.go_version hgo
  refine ⟨⟨⟨"Eä", "0.1.1", probeOK env.cargo_build⟩, ⟨"Rust", rv, probeOK env.rustc_version⟩,
    ⟨"C++", cv, probeOK env.gpp_version⟩, ⟨"Go", gv, probeOK env.go_version⟩⟩, ?_,
    rfl, rfl, rfl, rfl, hrv0, hcv0, hgv0, rfl⟩
  simp only [detect_compilers, detect_ea_ok, hrv, hcv, hgv]
  rfl

/-- Witness for `detect_compilers_total_on_parseable_hosts`: a host with
none of the four binaries installed. -/
theorem detect_compilers_total_on_parseable_hosts_witness :
    ∃ cs : Compilers,
      detect_compilers ⟨.notFound, .notFound, .notFound, .notFound⟩ = .ok cs
        ∧ cs.ea.available = probeOK ProbeOutcome.notFound
        ∧ cs.rust.available = probeOK ProbeOutcome.notFound
        ∧ cs.cpp.available = probeOK ProbeOutcome.notFound
        ∧ cs.go.available = probeOK ProbeOutcome.notFound
        ∧ (cs.rust.available = false → cs.rust.version = "unknown")
        ∧ (cs.cpp.available = false → cs.cpp.version = "unknown")
        ∧ (cs.go.available = false → cs.go.version = "unknown")
        ∧ cs.ea.version = "0.1.1" :=
  detect_compilers_total_on_parseable_hosts ⟨.notFound, .notFound, .notFound, .notFound⟩
    (fun _ _ h => nomatch h) (fun _ _ h => nomatch h)

theorem runPair_eq_pure (compilers : Compilers) (t c : String) (trials : List Trial)
    (h : (compilers.find? c).isSome) :
    runPair compilers t c trials = .ok (runPairPure compilers t c trials) := by
  rcases hf : compilers.find? c with _ | info
  · rw [hf] at h; cases h
  · rw [runPair, runPairPure, hf]
    by_cases ha : info.available <;> simp [ha]

theorem run_inner_ok (compilers : Compilers) (t : String)
    (outcomes : String → String → List Trial)
    (ps : List (String × String)) (acc : List BenchmarkResult)
    (h : ∀ cp ∈ ps, (compilers.find? cp.1).isSome) :
    ps.foldlM (fun acc2 cp => do
        let r ← runPair compilers t cp.1 (outcomes t cp.1)
        pure (match r with
              | some b => acc2 ++ [b]
              | none => acc2)) acc
      = .ok (acc ++ ps.filterMap (fun cp => runPairPure compilers t cp.1 (outcomes t cp.1))) := by
  induction ps generalizing acc with
  | nil => simp [List.foldlM, pure, Except.pure]
  | cons q qs ih =>
    rw [List.foldlM_cons]
    rw [runPair_eq_pure compilers t q.1 _ (h q (List.mem_cons_self q qs))]
    rcases hq : runPairPure compilers t q.1 (outcomes t q.1) with _ | b
    · have := ih acc (fun cp hcp => h cp (List.mem_cons_of_mem q hcp))
      simpa [hq, bind, Except.bind, pure, Except.pure, Functor.map, Except.map,
        List.filterMap_cons] using this
    · have := ih (acc ++ [b]) (fun cp hcp => h cp (List.mem_cons_of_mem q hcp))
      simpa [hq, bind, Except.bind, pure, Except.pure, Functor.map, Except.map,
        List.filterMap_cons] using this

theorem run_eq_pure (compilers : Compilers) (corpus : Corpus)
    (outcomes : String → String → List Trial)
    (h : ∀ tp ∈ corpus, ∀ cp ∈ tp.2, (compilers.find? cp.1).isSome) :
    run_comprehensive_benchmarks compilers corpus outcomes
      = .ok (runPure compilers corpus outcomes) := by
  rw [run_comprehensive_benchmarks, runPure]
  suffices hgen : ∀ acc : List BenchmarkResult,
      corpus.foldlM (fun acc tp =>
        tp.2.foldlM (fun acc2 cp => do
          let r ← runPair compilers tp.1 cp.1 (outcomes tp.1 cp.1)
          pure (match r with
                | some b => acc2 ++ [b]
                | none => acc2)) acc) acc
      = .ok (acc ++ corpus.flatMap (fun tp =>
          tp.2.filterMap (fun cp => runPairPure compilers tp.1 cp.1 (outcomes tp.1 cp.1)))) by
    simpa using hgen []
  induction corpus with
  | nil => intro acc; simp [List.foldlM, pure, Except.pure]
  | cons tp tps ih =>
    intro acc
    rw [List.foldlM_cons]
    rw [run_inner_ok compilers tp.1 outcomes tp.2 acc
      (fun cp hcp => h tp (List.mem_cons_self tp tps) cp hcp)]
    have := ih (fun tq hq cp hcp => h tq (List.mem_cons_of_mem tp hq) cp hcp)
      (acc ++ tp.2.filterMap (fun cp => runPairPure compilers tp.1 cp.1 (outcomes tp.1 cp.1)))
    simpa [bind, Except.bind, List.flatMap_cons, List.append_assoc] using this

theorem aggregatePair_fields (c t : String) (trials : List Trial)
    (b : BenchmarkResult) (h : aggregatePair c t trials = some b) :
    b.compiler = c ∧ b.test_name = t := by
  rw [aggregatePair] at h
  by_cases he : (collectSuccess trials).isEmpty
  · simp [he] at h
  · simp only [he, if_false] at h
    cases h
    exact ⟨rfl, rfl⟩

theorem runPairPure_fields (compilers : Compilers) (t c : String)
    (trials : List Trial) (b : BenchmarkResult)
    (h : runPairPure compilers t c trials = some b) :
    b.compiler = c ∧ b.test_name = t := by
  rw [runPairPure] at h
  rcases hf : compilers.find? c with _ | info <;> rw [hf] at h <;> dsimp only at h
  · cases h
  · by_cases ha : info.available
    · rw [if_pos ha] at h
      exact aggregatePair_fields c t trials b h
    · simp [ha] at h

theorem collectSuccess_isEmptyb (trials : List Trial) :
    (collectSuccess trials).isEmpty = !(trials.any (·.success)) := by
  rw [collectSuccess_eq]
  rcases hany : trials.any (·.success) with _ | _
  · have : trials.filter (·.success) = [] := by
      rw [List.filter_eq_nil_iff]
      exact fun a ha => by simpa using (List.any_eq_false.mp hany) a ha
    simp [this]
  · rcases List.any_eq_true.mp hany with ⟨a, ha, hsa⟩
    have : a ∈ trials.filter (·.success) := List.mem_filter.mpr ⟨ha, hsa⟩
    rcases hfil : trials.filter (·.success) with _ | ⟨x, xs⟩
    · rw [hfil] at this; cases this
    · simp [hfil]

theorem aggregatePair_isSomeb (c t : String) (trials : List Trial) :
    (aggregatePair c t trials).isSome = trials.any (·.success) := by
  rw [aggregatePair]
  rcases hany : trials.any (·.success) with _ | _ <;>
    simp [collectSuccess_isEmptyb, hany]

theorem runPairPure_isSomeb (compilers : Compilers) (t c : String)
    (trials : List Trial) (info : CompilerInfo)
    (hinfo : compilers.find? c = some info) :
    (runPairPure compilers t c trials).isSome
      = (info.available && trials.any (·.success)) := by
  rw [runPairPure, hinfo]
  by_cases ha : info.available
  · simp [ha, aggregatePair_isSomeb]
  · simp [ha]

theorem inner_count_zero (compilers : Compilers)
    (outcomes : String → String → List Trial) (t c : String)
    (ps : List (String × String)) (h : ∀ cp ∈ ps, cp.1 ≠ c) :
    (ps.filterMap
        (fun cp => runPairPure compilers t cp.1 (outcomes t cp.1))).countP
        (matchesPair c t) = 0 := by
  rw [List.countP_eq_zero]
  intro b hb
  rcases List.mem_filterMap.mp hb with ⟨cp, hcp, hrun⟩
  have hfields := runPairPure_fields compilers t cp.1 _ b hrun
  simp [matchesPair, hfields.1, h cp hcp]

theorem inner_count (compilers : Compilers)
    (outcomes : String → String → List Trial) (t c : String)
    (info : CompilerInfo) (hinfo : compilers.find? c = some info) :
    ∀ ps : List (String × String), (ps.map Prod.fst).Nodup →
      (∃ prog, (c, prog) ∈ ps) →
      (ps.filterMap
          (fun cp => runPairPure compilers t cp.1 (outcomes t cp.1))).countP
          (matchesPair c t)
        = if info.available && (outcomes t c).any (·.success) then 1 else 0 := by
  intro ps
  induction ps with
  | nil => rintro _ ⟨prog, hprog⟩; cases hprog
  | cons q qs ih =>
    rintro hnodup ⟨prog, hprog⟩
    rw [List.map_cons, List.nodup_cons] at hnodup
    by_cases hq : q.1 = c
    · have hqs : ∀ cp ∈ qs, cp.1 ≠ c := by
        intro cp hcp heq
        apply hnodup.1
        rw [hq, ← heq]
        exact List.mem_map_of_mem Prod.fst hcp
      rcases hr : runPairPure compilers t q.1 (outcomes t q.1) with _ | b
      · have h1 : runPairPure compilers t c (outcomes t c) = none := by
          rw [← hq]; exact hr
        have hnone : (info.available && (outcomes t c).any (·.success)) = false := by
          rw [← runPairPure_isSomeb compilers t c _ info hinfo, h1]; rfl
        simp only [List.filterMap_cons, hr]
        rw [inner_count_zero compilers outcomes t c qs hqs, hnone]
        simp
      · have h1 : runPairPure compilers t c (outcomes t c) = some b := by
          rw [← hq]; exact hr
        have hsome : (info.available && (outcomes t c).any (·.success)) = true := by
          rw [← runPairPure_isSomeb compilers t c _ info hinfo, h1]; rfl
        have hfields := runPairPure_fields compilers t q.1 _ b hr
        simp only [List.filterMap_cons, hr]
        rw [List.countP_cons, inner_count_zero compilers outcomes t c qs hqs, hsome]
        simp [matchesPair, hfields.1, hfields.2, hq]
    · have hprog' : (c, prog) ∈ qs := by
        rcases List.mem_cons.mp hprog with h1 | h1
        · exact absurd (congrArg Prod.fst h1).symm hq
        · exact h1
      rcases hr : runPairPure compilers t q.1 (outcomes t q.1) with _ | b
      · simp only [List.filterMap_cons, hr]
        exact ih hnodup.2 ⟨prog, hprog'⟩
      · have hfields := runPairPure_fields compilers t q.1 _ b hr
        have hfalse : matchesPair c t b = false := by
          simp [matchesPair, hfields.1, hq]
        simp only [List.filterMap_cons, hr]
        rw [List.countP_cons, hfalse, ih hnodup.2 ⟨prog, hprog'⟩]
        simp

theorem runPure_cons (compilers : Compilers) (tp : String × List (String × String))
    (tps : Corpus) (outcomes : String → String → List Trial) :
    runPure compilers (tp :: tps) outcomes
      = tp.2.filterMap (fun cp => runPairPure compilers tp.1 cp.1 (outcomes tp.1 cp.1))
        ++ runPure compilers tps outcomes := by
  rw [runPure, runPure, List.flatMap_cons]

theorem inner_count_zero_test (compilers : Compilers)
    (outcomes : String → String → List Trial) (t c tq : String)
    (ps : List (String × String)) (h : tq ≠ t) :
    (ps.filterMap
        (fun cp => runPairPure compilers tq cp.1 (outcomes tq cp.1))).countP
        (matchesPair c t) = 0 := by
  rw [List.countP_eq_zero]
  intro b hb
  rcases List.mem_filterMap.mp hb with ⟨cp, hcp, hrun⟩
  have hfields := runPairPure_fields compilers tq cp.1 _ b hrun
  simp [matchesPair, hfields.2, h]

theorem outer_count_zero (compilers : Compilers)
    (outcomes : String → String → List Trial) (t c : String) :
    ∀ tps : Corpus, (∀ tp ∈ tps, tp.1 ≠ t) →
      (runPure compilers tps outcomes).countP (matchesPair c t) = 0 := by
  intro tps
  induction tps with
  | nil => intro _; rfl
  | cons tp tps ih =>
    intro h
    rw [runPure_cons, List.countP_append,
      inner_count_zero_test compilers outcomes t c tp.1 tp.2 (h tp (List.mem_cons_self tp tps)),
      ih (fun tq hq => h tq (List.mem_cons_of_mem tp hq))]

theorem runPure_count (compilers : Compilers)
    (outcomes : String → String → List Trial) (t c : String)
    (info : CompilerInfo) (progs : List (String × String)) (prog : String)
    (hinfo : compilers.find? c = some info) (hcp : (c, prog) ∈ progs) :
    ∀ corpus : Corpus, (corpus.map Prod.fst).Nodup →
      (∀ tp ∈ corpus, (tp.2.map Prod.fst).Nodup) →
      (t, progs) ∈ corpus →
      (runPure compilers corpus outcomes).countP (matchesPair c t)
        = if info.available && (outcomes t c).any (·.success) then 1 else 0 := by
  intro corpus
  induction corpus with
  | nil => intro _ _ hmem; cases hmem
  | cons tp tps ih =>
    intro hnodup hinner hmem
    rw [List.map_cons, List.nodup_cons] at hnodup
    rw [runPure_cons, List.countP_append]
    by_cases ht : tp.1 = t
    · have htp : tp = (t, progs) := by
        rcases List.mem_cons.mp hmem with h1 | h1
        · exact h1.symm
        · exfalso
          apply hnodup.1
          rw [ht]
          exact List.mem_map_of_mem Prod.fst h1
      have hzero : (runPure compilers tps outcomes).countP (matchesPair c t) = 0 := by
        apply outer_count_zero
        intro tq hq heq
        apply hnodup.1
        rw [ht, ← heq]
        exact List.mem_map_of_mem Prod.fst hq
      subst htp
      rw [hzero,
        inner_count compilers outcomes t c info hinfo progs
          (hinner (t, progs) (List.mem_cons_self _ tps)) ⟨prog, hcp⟩]
      simp
    · have hmem' : (t, progs) ∈ tps := by
        rcases List.mem_cons.mp hmem with h1 | h1
        · exact absurd (congrArg Prod.fst h1).symm ht
        · exact h1
      rw [inner_count_zero_test compilers outcomes t c tp.1 tp.2 ht,
        ih hnodup.2 (fun tq hq => hinner tq (List.mem_cons_of_mem tp hq)) hmem']
      simp

theorem isPrefixL_refl : ∀ l : List Char, isPrefixL l l = true
  | [] => rfl
  | c :: cs => by simp [isPrefixL, isPrefixL_refl cs]

theorem isPrefixL_cons_false (p : Char) (ps : List Char) (c : Char) (cs : List Char)
    (h : p ≠ c) : isPrefixL (p :: ps) (c :: cs) = false := by
  simp [isPrefixL, h]

theorem containsSub_cons (pat : List Char) (c : Char) (rest : List Char) :
    containsSub pat (c :: rest) = (isPrefixL pat (c :: rest) || containsSub pat rest) :=
  rfl

theorem containsSub_of_suffix (p : Char) (ps : List Char) :
    ∀ xs : List Char, containsSub (p :: ps) (xs ++ p :: ps) = true := by
  intro xs
  induction xs with
  | nil => simp [containsSub_cons, isPrefixL_refl]
  | cons c cs ih =>
    rw [List.cons_append, containsSub_cons, ih, Bool.or_true]

theorem containsSub_eq_false (p : Char) (ps : List Char) :
    ∀ l : List Char, p ∉ l → containsSub (p :: ps) l = false := by
  intro l
  induction l with
  | nil => intro _; rfl
  | cons c cs ih =>
    intro h
    have hpc : p ≠ c := fun he => h (he ▸ List.mem_cons_self c cs)
    rw [containsSub_cons, isPrefixL_cons_false p ps c cs hpc,
      ih (fun hm => h (List.mem_cons_of_mem c hm))]
    rfl

theorem pyReplace_nil (pat rep : List Char) : pyReplace pat rep [] = [] := by
  rw [pyReplace]

theorem pyReplace_cons_miss (pat rep : List Char) (c : Char) (rest : List Char)
    (h : isPrefixL pat (c :: rest) = false) :
    pyReplace pat rep (c :: rest) = c :: pyReplace pat rep rest := by
  rw [pyReplace, dif_neg]
  intro hc
  rw [hc.2] at h
  cases h

theorem pyReplace_append_notin (p : Char) (ps rep : List Char) :
    ∀ xs ys : List Char, p ∉ xs →
      pyReplace (p :: ps) rep (xs ++ ys) = xs ++ pyReplace (p :: ps) rep ys := by
  intro xs
  induction xs with
  | nil => intro ys _; rfl
  | cons c cs ih =>
    intro ys h
    have hpc : p ≠ c := fun he => h (he ▸ List.mem_cons_self c cs)
    rw [List.cons_append,
      pyReplace_cons_miss (p :: ps) rep c (cs ++ ys) (isPrefixL_cons_false p ps c _ hpc),
      ih ys (fun hm => h (List.mem_cons_of_mem c hm)), List.cons_append]

theorem pyReplace_notin (p : Char) (ps rep : List Char) (l : List Char)
    (h : p ∉ l) : pyReplace (p :: ps) rep l = l := by
  have := pyReplace_append_notin p ps rep l [] h
  simpa [pyReplace_nil] using this

theorem pyReplace_self_nilrep (p : Char) (ps : List Char) :
    pyReplace (p :: ps) [] (p :: ps) = [] := by
  rw [pyReplace, dif_pos ⟨List.cons_ne_nil p ps, isPrefixL_refl (p :: ps)⟩]
  simp [pyReplace_nil]

theorem pyReplace_strip_pat (p : Char) (ps : List Char) (xs : List Char)
    (h : p ∉ xs) : pyReplace (p :: ps) [] (xs ++ p :: ps) = xs := by
  rw [pyReplace_append_notin p ps [] xs (p :: ps) h, pyReplace_self_nilrep]
  simp

theorem dropWhile_eq_self_of (p : Char → Bool) (l : List Char)
    (h : ∀ c ∈ l, p c = false) : l.dropWhile p = l := by
  cases l with
  | nil => rfl
  | cons c cs =>
    rw [List.dropWhile_cons, if_neg]
    rw [h c (List.mem_cons_self c cs)]
    simp

theorem pyStrip_eq_self (l : List Char) (h : ∀ c ∈ l, isPySpace c = false) :
    pyStrip l = l := by
  rw [pyStrip, dropWhile_eq_self_of isPySpace l h,
    dropWhile_eq_self_of isPySpace l.reverse
      (fun c hc => h c (List.mem_reverse.mp hc)),
    List.reverse_reverse]

theorem takeWhile_append_all (p : Char → Bool) :
    ∀ xs ys : List Char, (∀ c ∈ xs, p c = true) →
      (xs ++ ys).takeWhile p = xs ++ ys.takeWhile p := by
  intro xs
  induction xs with
  | nil => intro ys _; rfl
  | cons c cs ih =>
    intro ys h
    rw [List.cons_append, List.takeWhile_cons, if_pos (h c (List.mem_cons_self c cs)),
      ih ys (fun d hd => h d (List.mem_cons_of_mem c hd)), List.cons_append]

theorem dropWhile_append_all (p : Char → Bool) :
    ∀ xs ys : List Char, (∀ c ∈ xs, p c = true) →
      (xs ++ ys).dropWhile p = ys.dropWhile p := by
  intro xs
  induction xs with
  | nil => intro ys _; rfl
  | cons c cs ih =>
    intro ys h
    rw [List.cons_append, List.dropWhile_cons, if_pos (h c (List.mem_cons_self c cs)),
      ih ys (fun d hd => h d (List.mem_cons_of_mem c hd))]

theorem digit_bne_dot (c : Char) (h : c.isDigit = true) : (c != '.') = true := by
  rcases hc : c == '.' with _ | _
  · simp [bne, hc]
  · have : c = '.' := beq_iff_eq.mp hc
    rw [this] at h
    exact absurd h (by decide)

theorem digit_ne_of_not_digit (c ch : Char) (h : c.isDigit = true)
    (hch : ch.isDigit = false) : ch ≠ c := by
  intro he
  rw [← he] at h
  rw [h] at hch
  cases hch

theorem notin_digits (d : List Char) (hd : d.all (·.isDigit) = true)
    (ch : Char) (hch : ch.isDigit = false) : ch ∉ d := by
  intro hm
  have := List.all_eq_true.mp hd ch hm
  simp only at this
  rw [this] at hch
  cases hch

theorem isPySpace_digit (c : Char) (h : c.isDigit = true) : isPySpace c = false := by
  rcases hsp : isPySpace c with _ | _
  · rfl
  · exfalso
    rw [isPySpace] at hsp
    simp only [Bool.or_eq_true, beq_iff_eq] at hsp
    rcases hsp with ((((h1 | h1) | h1) | h1) | h1) | h1 <;> rw [h1] at h <;>
      exact absurd h (by decide)

theorem takeWhile_eq_self_of (p : Char → Bool) :
    ∀ l : List Char, (∀ c ∈ l, p c = true) → l.takeWhile p = l := by
  intro l
  induction l with
  | nil => intro _; rfl
  | cons c cs ih =>
    intro h
    rw [List.takeWhile_cons, if_pos (h c (List.mem_cons_self c cs)),
      ih (fun d hd => h d (List.mem_cons_of_mem c hd))]

theorem dropWhile_eq_nil_of (p : Char → Bool) :
    ∀ l : List Char, (∀ c ∈ l, p c = true) → l.dropWhile p = [] := by
  intro l
  induction l with
  | nil => intro _; rfl
  | cons c cs ih =>
    intro h
    rw [List.dropWhile_cons, if_pos (h c (List.mem_cons_self c cs)),
      ih (fun d hd => h d (List.mem_cons_of_mem c hd))]

theorem parse_render (d f : List Char) (hd : d ≠ [])
    (hda : d.all (·.isDigit) = true) (hfa : f.all (·.isDigit) = true) :
    parsePyFloat (renderNum d f) = some (numValue d f) := by
  have hdig : ∀ c ∈ d, (c != '.') = true := fun c hc =>
    digit_bne_dot c (List.all_eq_true.mp hda c hc)
  have hdne : d.isEmpty = false := by
    rcases d with _ | _
    · exact absurd rfl hd
    · rfl
  rcases f with _ | ⟨f0, fs⟩
  · have hr : renderNum d [] = d := by simp [renderNum]
    have ht : d.takeWhile (· != '.') = d := takeWhile_eq_self_of _ d hdig
    have hdr : d.dropWhile (· != '.') = [] := dropWhile_eq_nil_of _ d hdig
    rw [parsePyFloat, hr]
    simp only [ht, hdr]
    rw [if_pos (by rw [hdne, hda]; rfl)]
    simp [numValue]
  · have hr : renderNum d (f0 :: fs) = d ++ '.' :: f0 :: fs := by simp [renderNum]
    have hdotf : (('.' : Char) != '.') = false := by decide
    have ht : (d ++ '.' :: f0 :: fs).takeWhile (· != '.') = d := by
      rw [takeWhile_append_all _ d _ hdig, List.takeWhile_cons, if_neg (by rw [hdotf]; simp)]
      simp
    have hdr : (d ++ '.' :: f0 :: fs).dropWhile (· != '.') = '.' :: f0 :: fs := by
      rw [dropWhile_append_all _ d _ hdig, List.dropWhile_cons,
        if_neg (by rw [hdotf]; simp)]
    rw [parsePyFloat, hr]
    simp only [ht, hdr]
    rw [if_pos (by rw [hdne, hda, hfa]; rfl)]
    simp [numValue]

theorem notin_append (ch : Char) (xs ys : List Char) (h1 : ch ∉ xs)
    (h2 : ch ∉ ys) : ch ∉ xs ++ ys := by
  intro h
  rcases List.mem_append.mp h with h | h
  · exact h1 h
  · exact h2 h

theorem notin_render (d f : List Char) (hda : d.all (·.isDigit) = true)
    (hfa : f.all (·.isDigit) = true) (ch : Char) (hch : ch.isDigit = false)
    (hdot : ch ≠ '.') : ch ∉ renderNum d f := by
  intro hm
  rw [renderNum] at hm
  rcases List.mem_append.mp hm with h1 | h1
  · exact notin_digits d hda ch hch h1
  · by_cases hfe : f.isEmpty
    · rw [if_pos hfe] at h1
      cases h1
    · rw [if_neg hfe] at h1
      rcases List.mem_cons.mp h1 with h2 | h2
      · exact hdot h2
      · exact notin_digits f hfa ch hch h2

theorem render_no_space (d f : List Char) (hda : d.all (·.isDigit) = true)
    (hfa : f.all (·.isDigit) = true) :
    ∀ c ∈ renderNum d f, isPySpace c = false := by
  intro c hc
  rw [renderNum] at hc
  rcases List.mem_append.mp hc with h1 | h1
  · exact isPySpace_digit c (List.all_eq_true.mp hda c h1)
  · by_cases hfe : f.isEmpty
    · rw [if_pos hfe] at h1
      cases h1
    · rw [if_neg hfe] at h1
      rcases List.mem_cons.mp h1 with h2 | h2
      · rw [h2]; decide
      · exact isPySpace_digit c (List.all_eq_true.mp hfa c h2)

/-- C9: `convert_to_microseconds` converts a numeral-plus-unit string to
microseconds: for every nonnegative decimal numeral `x` (integer digits
`d`, optional fractional digits `f`), the input `x ++ "ns"` yields
`x/1000`, `x ++ "µs"` and `x ++ "us"` yield `x`, `x ++ "ms"` yields
`x*1000`, and `x ++ "s"` alone yields `x*1000000`; and any input
containing none of the five unit markers whose stripped text does not
parse as a number yields `None` (rather than raising). -/
theorem convert_to_microseconds_spec (d f s : List Char) (hd : d ≠ [])
    (hda : d.all (·.isDigit) = true) (hfa : f.all (·.isDigit) = true)
    (h1 : containsSub nsPat (pyStrip s) = false)
    (h2 : containsSub musPat (pyStrip s) = false)
    (h3 : containsSub usPat (pyStrip s) = false)
    (h4 : containsSub msPat (pyStrip s) = false)
    (h5 : containsSub sPat (pyStrip s) = false)
    (h6 : parsePyFloat (pyStrip s) = none) :
    convert_to_microseconds (renderNum d f ++ nsPat)
        = .ok (some (numValue d f / 1000))
      ∧ convert_to_microseconds (renderNum d f ++ musPat)
        = .ok (some (numValue d f))
      ∧ convert_to_microseconds (renderNum d f ++ usPat)
        = .ok (some (numValue d f))
      ∧ convert_to_microseconds (renderNum d f ++ msPat)
        = .ok (some (numValue d f * 1000))
      ∧ convert_to_microseconds (renderNum d f ++ sPat)
        = .ok (some (numValue d f * 1000000))
      ∧ convert_to_microseconds s = .ok none := by
  have hnosp := render_no_space d f hda hfa
  have hnotin : ∀ ch : Char, ch.isDigit = false → ch ≠ '.' → ch ∉ renderNum d f :=
    fun ch hch hdot => notin_render d f hda hfa ch hch hdot
  have hparse := parse_render d f hd hda hfa
  have hstripr := pyStrip_eq_self (renderNum d f) hnosp
  refine ⟨?_, ?_, ?_, ?_, ?_, ?_⟩
  · -- "ns" branch
    have hstrip : pyStrip (renderNum d f ++ nsPat) = renderNum d f ++ nsPat := by
      apply pyStrip_eq_self
      intro c hc
      rcases List.mem_append.mp hc with hcr | hcr
      · exact hnosp c hcr
      · rcases hcr with _ | ⟨_, hcr⟩
        · decide
        · rcases hcr with _ | ⟨_, hcr⟩
          · decide
          · cases hcr
    have hcns : containsSub nsPat (renderNum d f ++ nsPat) = true :=
      containsSub_of_suffix 'n' ['s'] (renderNum d f)
    have hrepl : pyReplace nsPat [] (renderNum d f ++ nsPat) = renderNum d f :=
      pyReplace_strip_pat 'n' ['s'] (renderNum d f)
        (hnotin 'n' (by decide) (by decide))
    rw [convert_to_microseconds]
    simp only [hstrip, hcns, if_true, hrepl, hstripr, hparse]
  · -- "µs" branch
    have hstrip : pyStrip (renderNum d f ++ musPat) = renderNum d f ++ musPat := by
      apply pyStrip_eq_self
      intro c hc
      rcases List.mem_append.mp hc with hcr | hcr
      · exact hnosp c hcr
      · rcases hcr with _ | ⟨_, hcr⟩
        · decide
        · rcases hcr with _ | ⟨_, hcr⟩
          · decide
          · cases hcr
    have hcns : containsSub nsPat (renderNum d f ++ musPat) = false :=
      containsSub_eq_false 'n' ['s'] _
        (notin_append 'n' _ _ (hnotin 'n' (by decide) (by decide)) (by decide))
    have hcmus : containsSub musPat (renderNum d f ++ musPat) = true :=
      containsSub_of_suffix 'µ' ['s'] (renderNum d f)
    have hrepl1 : pyReplace musPat [] (renderNum d f ++ musPat) = renderNum d f :=
      pyReplace_strip_pat 'µ' ['s'] (renderNum d f)
        (hnotin 'µ' (by decide) (by decide))
    have hrepl2 : pyReplace usPat [] (renderNum d f) = renderNum d f :=
      pyReplace_notin 'u' ['s'] [] _ (hnotin 'u' (by decide) (by decide))
    rw [convert_to_microseconds]
    simp only [hstrip, hcns, hcmus, Bool.true_or, if_true, if_false,
      Bool.false_eq_true, hrepl1, hrepl2, hstripr, hparse]
  · -- "us" branch
    have hstrip : pyStrip (renderNum d f ++ usPat) = renderNum d f ++ usPat := by
      apply pyStrip_eq_self
      intro c hc
      rcases List.mem_append.mp hc with hcr | hcr
      · exact hnosp c hcr
      · rcases hcr with _ | ⟨_, hcr⟩
        · decide
        · rcases hcr with _ | ⟨_, hcr⟩
          · decide
          · cases hcr
    have hcns : containsSub nsPat (renderNum d f ++ usPat) = false :=
      containsSub_eq_false 'n' ['s'] _
        (notin_append 'n' _ _ (hnotin 'n' (by decide) (by decide)) (by decide))
    have hcmus : containsSub musPat (renderNum d f ++ usPat) = false :=
      containsSub_eq_false 'µ' ['s'] _
        (notin_append 'µ' _ _ (hnotin 'µ' (by decide) (by decide)) (by decide))
    have hcus : containsSub usPat (renderNum d f ++ usPat) = true :=
      containsSub_of_suffix 'u' ['s'] (renderNum d f)
    have hrepl1 : pyReplace musPat [] (renderNum d f ++ usPat)
        = renderNum d f ++ usPat :=
      pyReplace_notin 'µ' ['s'] [] _
        (notin_append 'µ' _ _ (hnotin 'µ' (by decide) (by decide)) (by decide))
    have hrepl2 : pyReplace usPat [] (renderNum d f ++ usPat) = renderNum d f :=
      pyReplace_strip_pat 'u' ['s'] (renderNum d f)
        (hnotin 'u' (by decide) (by decide))
    rw [convert_to_microseconds]
    simp only [hstrip, hcns, hcmus, hcus, Bool.false_or, if_true, if_false,
      Bool.false_eq_true, hrepl1, hrepl2, hstripr, hparse]
  · -- "ms" branch
    have hstrip : pyStrip (renderNum d f ++ msPat) = renderNum d f ++ msPat := by
      apply pyStrip_eq_self
      intro c hc
      rcases List.mem_append.mp hc with hcr | hcr
      · exact hnosp c hcr
      · rcases hcr with _ | ⟨_, hcr⟩
        · decide
        · rcases hcr with _ | ⟨_, hcr⟩
          · decide
          · cases hcr
    have hcns : containsSub nsPat (renderNum d f ++ msPat) = false :=
      containsSub_eq_false 'n' ['s'] _
        (notin_append 'n' _ _ (hnotin 'n' (by decide) (by decide)) (by decide))
    have hcmus : containsSub musPat (renderNum d f ++ msPat) = false :=
      containsSub_eq_false 'µ' ['s'] _
        (notin_append 'µ' _ _ (hnotin 'µ' (by decide) (by decide)) (by decide))
    have hcus : containsSub usPat (renderNum d f ++ msPat) = false :=
      containsSub_eq_false 'u' ['s'] _
        (notin_append 'u' _ _ (hnotin 'u' (by decide) (by decide)) (by decide))
    have hcms : containsSub msPat (renderNum d f ++ msPat) = true :=
      containsSub_of_suffix 'm' ['s'] (renderNum d f)
    have hrepl : pyReplace msPat [] (renderNum d f ++ msPat) = renderNum d f :=
      pyReplace_strip_pat 'm' ['s'] (renderNum d f)
        (hnotin 'm' (by decide) (by decide))
    rw [convert_to_microseconds]
    simp only [hstrip, hcns, hcmus, hcus, hcms, Bool.or_self, if_true, if_false,
      Bool.false_eq_true, hrepl, hstripr, hparse]
  · -- "s" branch
    have hstrip : pyStrip (renderNum d f ++ sPat) = renderNum d f ++ sPat := by
      apply pyStrip_eq_self
      intro c hc
      rcases List.mem_append.mp hc with hcr | hcr
      · exact hnosp c hcr
      · rcases hcr with _ | ⟨_, hcr⟩
        · decide
        · cases hcr
    have hcns : containsSub nsPat (renderNum d f ++ sPat) = false :=
      containsSub_eq_false 'n' ['s'] _
        (notin_append 'n' _ _ (hnotin 'n' (by decide) (by decide)) (by decide))
    have hcmus : containsSub musPat (renderNum d f ++ sPat) = false :=
      containsSub_eq_false 'µ' ['s'] _
        (notin_append 'µ' _ _ (hnotin 'µ' (by decide) (by decide)) (by decide))
    have hcus : containsSub usPat (renderNum d f ++ sPat) = false :=
      containsSub_eq_false 'u' ['s'] _
        (notin_append 'u' _ _ (hnotin 'u' (by decide) (by decide)) (by decide))
    have hcms : containsSub msPat (renderNum d f ++ sPat) = false :=
      containsSub_eq_false 'm' ['s'] _
        (notin_append 'm' _ _ (hnotin 'm' (by decide) (by decide)) (by decide))
    have hcs : containsSub sPat (renderNum d f ++ sPat) = true :=
      containsSub_of_suffix 's' [] (renderNum d f)
    have hrepl : pyReplace sPat [] (renderNum d f ++ sPat) = renderNum d f :=
      pyReplace_strip_pat 's' [] (renderNum d f)
        (hnotin 's' (by decide) (by decide))
    rw [convert_to_microseconds]
    simp only [hstrip, hcns, hcmus, hcus, hcms, hcs, Bool.or_self, Bool.not_false,
      Bool.and_true, Bool.true_and, if_true, if_false, Bool.false_eq_true,
      hrepl, hstripr, hparse]
  · -- non-unit, non-numeric input
    rw [convert_to_microseconds]
    simp only [h1, h2, h3, h4, h5, h6, Bool.or_self, Bool.false_and,
      if_false, Bool.false_eq_true]

/-- Witness for `convert_to_microseconds_spec`: the numeral `12.5` with
each unit suffix, and the non-parsing unit-free input `abc`. -/
theorem convert_to_microseconds_spec_witness :
    convert_to_microseconds (renderNum ['1', '2'] ['5'] ++ nsPat)
        = .ok (some (numValue ['1', '2'] ['5'] / 1000))
      ∧ convert_to_microseconds (renderNum ['1', '2'] ['5'] ++ musPat)
        = .ok (some (numValue ['1', '2'] ['5']))
      ∧ convert_to_microseconds (renderNum ['1', '2'] ['5'] ++ usPat)
        = .ok (some (numValue ['1', '2'] ['5']))
      ∧ convert_to_microseconds (renderNum ['1', '2'] ['5'] ++ msPat)
        = .ok (some (numValue ['1', '2'] ['5'] * 1000))
      ∧ convert_to_microseconds (renderNum ['1', '2'] ['5'] ++ sPat)
        = .ok (some (numValue ['1', '2'] ['5'] * 1000000))
      ∧ convert_to_microseconds ['a', 'b', 'c'] = .ok none :=
  convert_to_microseconds_spec ['1', '2'] ['5'] ['a', 'b', 'c']
    (by decide) (by decide) (by decide) (by decide) (by decide) (by decide)
    (by decide) (by decide) (by decide)

theorem truthy_getD (o : Option ℚ) (h : truthy o = true) : o.getD 0 ≠ 0 := by
  cases o with
  | none => cases h
  | some q =>
    rw [truthy] at h
    simpa using bne_iff_ne.mp h

theorem safeDiv_ok (a b : ℚ) (h : b ≠ 0) : safeDiv a b = .ok (a / b) := by
  rw [safeDiv, if_neg h]

theorem liftConvert_not_zeroDiv (s : List Char) :
    liftConvert s ≠ .error .zeroDiv := by
  rw [liftConvert]
  rcases convert_to_microseconds s with _ | v <;> intro h <;> cases h

theorem frontendCompare_not_zeroDiv (grp : List (String × List Char))
    (key : String) (ea_time : Option ℚ) :
    frontendCompare grp key ea_time ≠ .error .zeroDiv := by
  rw [frontendCompare]
  rcases hl : lookupA grp key with _ | s <;>
    rcases ht : truthy ea_time with _ | _ <;>
    (try dsimp only)
  · intro h; cases h
  · intro h; cases h
  · intro h; cases h
  · rcases hc : liftConvert s with e | ct <;> (try dsimp only)
    · intro h
      injection h with he
      exact liftConvert_not_zeroDiv s (he ▸ hc)
    · by_cases hct : truthy ct = true
      · rw [if_pos hct, safeDiv_ok _ _ (truthy_getD ea_time ht),
          safeDiv_ok _ _ (truthy_getD ct hct)]
        intro h; cases h
      · rw [if_neg hct]
        intro h; cases h

theorem pipelineCompare_not_zeroDiv (grp : List (String × List Char))
    (key : String) (ea_time : Option ℚ) :
    pipelineCompare grp key ea_time ≠ .error .zeroDiv := by
  rw [pipelineCompare]
  rcases hl : lookupA grp key with _ | s <;>
    rcases ht : truthy ea_time with _ | _ <;>
    (try dsimp only)
  · intro h; cases h
  · intro h; cases h
  · intro h; cases h
  · rcases hc : liftConvert s with e | ct <;> (try dsimp only)
    · intro h
      injection h with he
      exact liftConvert_not_zeroDiv s (he ▸ hc)
    · by_cases hct : truthy ct = true
      · rw [if_pos hct]
        (try dsimp only)
        rw [safeDiv_ok _ _ (truthy_getD ea_time ht)]
        (try dsimp only)
        rw [if_pos hct]
        rw [safeDiv_ok _ _ (truthy_getD ct hct)]
        (try dsimp only)
        intro h; cases h
      · rw [if_neg hct]
        intro h; cases h

theorem eaTimeOf_not_zeroDiv (grp : List (String × List Char)) (key : String) :
    eaTimeOf grp key ≠ .error .zeroDiv := by
  rw [eaTimeOf]
  rcases lookupA grp key with _ | s <;> (try dsimp only)
  · intro h; cases h
  · rcases hc : liftConvert s with e | v <;> (try dsimp only)
    · intro h
      injection h with he
      exact liftConvert_not_zeroDiv s (he ▸ hc)
    · intro h; cases h

theorem frontendPartOf_not_zeroDiv
    (results : List (String × List (String × List Char))) :
    frontendPartOf results ≠ .error .zeroDiv := by
  rw [frontendPartOf]
  rcases lookupA results "frontend_only_fair_comparison" with _ | grp <;> (try dsimp only)
  · intro h; cases h
  · rcases he : eaTimeOf grp "ea_frontend" with e | ea_us <;> (try dsimp only)
    · intro h
      injection h with h1
      exact eaTimeOf_not_zeroDiv grp _ (h1 ▸ he)
    · rcases hr : frontendCompare grp "rustc_frontend" ea_us.join with e | r <;> (try dsimp only)
      · intro h
        injection h with h1
        exact frontendCompare_not_zeroDiv grp _ _ (h1 ▸ hr)
      · rcases hc : frontendCompare grp "clang_frontend" ea_us.join with e | c <;> (try dsimp only)
        · intro h
          injection h with h1
          exact frontendCompare_not_zeroDiv grp _ _ (h1 ▸ hc)
        · rcases hg : frontendCompare grp "go_frontend" ea_us.join with e | g <;> (try dsimp only)
          · intro h
            injection h with h1
            exact frontendCompare_not_zeroDiv grp _ _ (h1 ▸ hg)
          · intro h; cases h

theorem pipelinePartOf_not_zeroDiv
    (results : List (String × List (String × List Char))) :
    pipelinePartOf results ≠ .error .zeroDiv := by
  rw [pipelinePartOf]
  rcases lookupA results "full_pipeline_fair_comparison" with _ | grp <;> (try dsimp only)
  · intro h; cases h
  · rcases he : eaTimeOf grp "ea_full_pipeline" with e | ea_us <;> (try dsimp only)
    · intro h
      injection h with h1
      exact eaTimeOf_not_zeroDiv grp _ (h1 ▸ he)
    · rcases hr : pipelineCompare grp "rustc_full_pipeline" ea_us.join with e | r <;> (try dsimp only)
      · intro h
        injection h with h1
        exact pipelineCompare_not_zeroDiv grp _ _ (h1 ▸ hr)
      · rcases hc : pipelineCompare grp "gcc_full_pipeline" ea_us.join with e | c <;> (try dsimp only)
        · intro h
          injection h with h1
          exact pipelineCompare_not_zeroDiv grp _ _ (h1 ▸ hc)
        · rcases hg : pipelineCompare grp "go_full_pipeline" ea_us.join with e | g <;> (try dsimp only)
          · intro h
            injection h with h1
            exact pipelineCompare_not_zeroDiv grp _ _ (h1 ▸ hg)
          · intro h; cases h

/-- C10: every division `analyze_results` performs is guarded so that its
denominator is a truthy (hence nonzero) converted time; for every
parsed-results input the analysis never raises `ZeroDivisionError` (it can
only propagate a `ValueError` from an unguarded `float()` conversion). -/
theorem analyze_results_never_zero_div
    (results : List (String × List (String × List Char))) :
    analyze_results results ≠ .error .zeroDiv := by
  rw [analyze_results]
  rcases hf : frontendPartOf results with e | fp <;> (try dsimp only)
  · intro h
    injection h with h1
    exact frontendPartOf_not_zeroDiv results (h1 ▸ hf)
  · rcases hp : pipelinePartOf results with e | pp <;> (try dsimp only)
    · intro h
      injection h with h1
      exact pipelinePartOf_not_zeroDiv results (h1 ▸ hp)
    · intro h; cases h

end PerfVal
